import Mathlib

/-
Verification of the path-registry component (PFERD/report.py).

A `PurePath` is modelled as its sequence of path segments, which is what
Python's `PurePath` equality and `relative_to` act on.  Python sets of paths
are modelled as duplicate-free insertion-ordered lists: `setAdd` inserts an
element only when it is not already present, matching `set.add`.
-/

set_option autoImplicit false

abbrev PurePath := List String

/-- `is_relative_to a b` from report.py: `a.relative_to(b)` succeeds exactly
when `b`'s segment sequence is a prefix of `a`'s (including `a = b`). -/
def is_relative_to : PurePath → PurePath → Bool
  | _, [] => true
  | [], _ :: _ => false
  | a :: as, b :: bs => if a = b then is_relative_to as bs else false

/-- The two exception types of report.py: `MarkDuplicateException(path)` and
`MarkConflictException(path, collides_with)`. -/
inductive MarkException where
  | markDuplicate (path : PurePath)
  | markConflict (path : PurePath) (collides_with : PurePath)
deriving DecidableEq, Repr

/-- Python `set.add`: insert `p` only if absent (idempotent insertion). -/
def setAdd (s : List PurePath) (p : PurePath) : List PurePath :=
  if p ∈ s then s else s ++ [p]

/-- The `Report` state: the five path sets created in `Report.__init__`. -/
structure Report where
  reserved_files : List PurePath
  known_files : List PurePath
  new_files : List PurePath
  changed_files : List PurePath
  deleted_files : List PurePath
deriving DecidableEq, Repr

/-- `Report.__init__`: all five sets start empty. -/
def Report.init : Report := ⟨[], [], [], [], []⟩

/-- `Report.mark_reserved`: add `path` to the reserved set. -/
def Report.mark_reserved (r : Report) (path : PurePath) : Report :=
  { r with reserved_files := setAdd r.reserved_files path }

/-- The loop body of `Report.mark`: scan the candidates; for each `other`,
first test `path == other` (duplicate), then the two `is_relative_to` calls
(conflict); return the first exception raised, or `none`. -/
def checkConflicts (path : PurePath) : List PurePath → Option MarkException
  | [] => none
  | other :: rest =>
    if path = other then some (.markDuplicate path)
    else if is_relative_to path other || is_relative_to other path then
      some (.markConflict path other)
    else checkConflicts path rest

/-- `self.known_files & self.reserved_files`: the intersection the mark loop
iterates over. -/
def interKnownReserved (r : Report) : List PurePath :=
  r.known_files.filter fun p => decide (p ∈ r.reserved_files)

/-- `Report.mark`: scan `known_files & reserved_files`; raise the first
duplicate/conflict exception, otherwise add `path` to `known_files`.  Raising
an exception leaves the receiver untouched because the mutation comes after
the loop. -/
def Report.mark (r : Report) (path : PurePath) : Except MarkException Report :=
  match checkConflicts path (interKnownReserved r) with
  | some e => .error e
  | none => .ok { r with known_files := setAdd r.known_files path }

/-- `Report.marked`: membership test in the known set. -/
def Report.marked (r : Report) (path : PurePath) : Bool :=
  decide (path ∈ r.known_files)

/-- `Report.add_file`: unconditionally insert into `new_files`. -/
def Report.add_file (r : Report) (path : PurePath) : Report :=
  { r with new_files := setAdd r.new_files path }

/-- `Report.change_file`: unconditionally insert into `changed_files`. -/
def Report.change_file (r : Report) (path : PurePath) : Report :=
  { r with changed_files := setAdd r.changed_files path }

/-- `Report.delete_file`: unconditionally insert into `deleted_files`. -/
def Report.delete_file (r : Report) (path : PurePath) : Report :=
  { r with deleted_files := setAdd r.deleted_files path }

/-- The operations a caller can perform on a registry during one pass. -/
inductive Op where
  | reserve (path : PurePath)
  | mark (path : PurePath)
  | is_marked (path : PurePath)
  | record_added (path : PurePath)
  | record_changed (path : PurePath)
  | record_deleted (path : PurePath)

/-- One caller step.  A `mark` that raises leaves the state unchanged (the
exception propagates to the caller before any mutation); `is_marked` is a
pure read. -/
def Report.step (r : Report) : Op → Report
  | .reserve p => r.mark_reserved p
  | .mark p =>
    match r.mark p with
    | .ok r' => r'
    | .error _ => r
  | .is_marked _ => r
  | .record_added p => r.add_file p
  | .record_changed p => r.change_file p
  | .record_deleted p => r.delete_file p

/-- A registry state together with the ghost history set `mrSet`: the paths
that were successfully marked at a moment when they were themselves in the
reserved set. -/
structure GState where
  report : Report
  mrSet : List PurePath
deriving DecidableEq, Repr

/-- `Report.step` instrumented with the ghost set: a successful `mark p`
records `p` in `mrSet` when `p` was reserved at call time. -/
def gstep (g : GState) : Op → GState
  | .mark p =>
    match g.report.mark p with
    | .ok r' =>
      ⟨r', if p ∈ g.report.reserved_files then setAdd g.mrSet p else g.mrSet⟩
    | .error _ => g
  | op => ⟨g.report.step op, g.mrSet⟩

/-- Run a sequence of operations from the empty registry, with ghost history. -/
def grun (ops : List Op) : GState :=
  ops.foldl gstep ⟨Report.init, []⟩

/-- `other` collides with `p` in the words of the spec: it is equal to `p`,
or one of the two is a strict ancestor of the other (its segment sequence is
a proper prefix of the other's).  Stated from the spec, to be compared with
the code's check. -/
def specCollides (p other : PurePath) : Prop :=
  other = p ∨ (∃ t, t ≠ [] ∧ p = other ++ t) ∨ (∃ t, t ≠ [] ∧ other = p ++ t)

example : is_relative_to ["a", "b"] ["a"] = true := by decide
example : is_relative_to ["a"] ["a", "b"] = false := by decide
example : is_relative_to ["a"] ["a"] = true := by decide
example : (Report.init.mark_reserved ["a"]).mark ["a"]
    = .ok ⟨[["a"]], [["a"]], [], [], []⟩ := rfl

/-! ### Helper lemmas -/

theorem is_relative_to_iff (a b : PurePath) :
    is_relative_to a b = true ↔ ∃ t, a = b ++ t := by
  induction b generalizing a with
  | nil => simp [is_relative_to]
  | cons y ys ih =>
    cases a with
    | nil => simp [is_relative_to]
    | cons x xs =>
      by_cases hxy : x = y
      · subst hxy
        simp [is_relative_to, ih]
      · simp [is_relative_to, hxy]

theorem mem_setAdd (s : List PurePath) (p q : PurePath) :
    q ∈ setAdd s p ↔ q ∈ s ∨ q = p := by
  unfold setAdd
  by_cases h : p ∈ s
  · rw [if_pos h]
    constructor
    · exact Or.inl
    · rintro (hq | rfl)
      exacts [hq, h]
  · rw [if_neg h]
    simp

theorem mem_setAdd_self (s : List PurePath) (p : PurePath) : p ∈ setAdd s p := by
  rw [mem_setAdd]
  exact Or.inr rfl

theorem mem_setAdd_of_mem (s : List PurePath) (p q : PurePath) (h : q ∈ s) :
    q ∈ setAdd s p := by
  rw [mem_setAdd]
  exact Or.inl h

theorem setAdd_idem (s : List PurePath) (p : PurePath) :
    setAdd (setAdd s p) p = setAdd s p := by
  unfold setAdd
  by_cases h : p ∈ s
  · simp [h]
  · simp [h]

theorem mem_interKnownReserved (r : Report) (q : PurePath) :
    q ∈ interKnownReserved r ↔ q ∈ r.known_files ∧ q ∈ r.reserved_files := by
  simp [interKnownReserved]

theorem checkConflicts_eq_none_iff (p : PurePath) (l : List PurePath) :
    checkConflicts p l = none ↔
      ∀ other ∈ l, p ≠ other ∧ is_relative_to p other = false ∧
        is_relative_to other p = false := by
  induction l with
  | nil => simp [checkConflicts]
  | cons other rest ih =>
    simp only [checkConflicts, List.mem_cons]
    by_cases h1 : p = other
    · subst h1
      rw [if_pos rfl]
      constructor
      · intro h
        exact absurd h (Option.some_ne_none _)
      · intro h
        exact absurd rfl (h p (Or.inl rfl)).1
    · rw [if_neg h1]
      by_cases h2 : (is_relative_to p other || is_relative_to other p) = true
      · rw [if_pos h2]
        rw [Bool.or_eq_true] at h2
        constructor
        · intro h
          exact absurd h (Option.some_ne_none _)
        · intro h
          obtain ⟨_, hpo, hop⟩ := h other (Or.inl rfl)
          rcases h2 with hh | hh
          · rw [hpo] at hh
            cases hh
          · rw [hop] at hh
            cases hh
      · rw [if_neg h2]
        rw [Bool.or_eq_true, not_or, Bool.not_eq_true, Bool.not_eq_true] at h2
        rw [ih]
        constructor
        · intro h q hq
          rcases hq with rfl | hq
          · exact ⟨h1, h2.1, h2.2⟩
          · exact h q hq
        · intro h q hq
          exact h q (Or.inr hq)

theorem checkConflicts_of_mem (p : PurePath) (l : List PurePath) (h : p ∈ l) :
    ∃ e, checkConflicts p l = some e := by
  induction l with
  | nil => cases h
  | cons other rest ih =>
    simp only [checkConflicts]
    by_cases h1 : p = other
    · rw [if_pos h1]
      exact ⟨_, rfl⟩
    · rw [if_neg h1]
      by_cases h2 : (is_relative_to p other || is_relative_to other p) = true
      · rw [if_pos h2]
        exact ⟨_, rfl⟩
      · rw [if_neg h2]
        rcases List.mem_cons.mp h with rfl | hm
        · exact absurd rfl h1
        · exact ih hm

theorem checkConflicts_conflict (p : PurePath) (l : List PurePath) (p' q : PurePath)
    (h : checkConflicts p l = some (.markConflict p' q)) : p' = p ∧ q ≠ p := by
  induction l with
  | nil => cases h
  | cons other rest ih =>
    simp only [checkConflicts] at h
    by_cases h1 : p = other
    · rw [if_pos h1] at h
      cases h
    · rw [if_neg h1] at h
      by_cases h2 : (is_relative_to p other || is_relative_to other p) = true
      · rw [if_pos h2] at h
        injection h with h'
        cases h'
        exact ⟨rfl, fun hq => h1 hq.symm⟩
      · rw [if_neg h2] at h
        exact ih h

theorem mark_ok_of_none (r : Report) (p : PurePath)
    (h : checkConflicts p (interKnownReserved r) = none) :
    r.mark p = .ok { r with known_files := setAdd r.known_files p } := by
  unfold Report.mark
  rw [h]

theorem mark_error_of_some (r : Report) (p : PurePath) (e : MarkException)
    (h : checkConflicts p (interKnownReserved r) = some e) :
    r.mark p = .error e := by
  unfold Report.mark
  rw [h]

theorem mark_ok_elim (r : Report) (p : PurePath) (r' : Report)
    (h : r.mark p = .ok r') :
    checkConflicts p (interKnownReserved r) = none ∧
      r' = { r with known_files := setAdd r.known_files p } := by
  unfold Report.mark at h
  cases hc : checkConflicts p (interKnownReserved r) with
  | some e =>
    rw [hc] at h
    cases h
  | none =>
    rw [hc] at h
    cases h
    exact ⟨rfl, rfl⟩

theorem mark_error_elim (r : Report) (p : PurePath) (e : MarkException)
    (h : r.mark p = .error e) :
    checkConflicts p (interKnownReserved r) = some e := by
  unfold Report.mark at h
  cases hc : checkConflicts p (interKnownReserved r) with
  | some e' =>
    rw [hc] at h
    cases h
    rfl
  | none =>
    rw [hc] at h
    cases h

theorem not_specCollides_iff (p other : PurePath) :
    ¬ specCollides p other ↔
      p ≠ other ∧ is_relative_to p other = false ∧
        is_relative_to other p = false := by
  unfold specCollides
  constructor
  · intro h
    refine ⟨fun he => h (Or.inl he.symm), ?_, ?_⟩
    · cases hrel : is_relative_to p other with
      | false => rfl
      | true =>
        obtain ⟨t, ht⟩ := (is_relative_to_iff p other).mp hrel
        cases t with
        | nil =>
          have hpo : p = other := by simpa using ht
          exact absurd (Or.inl hpo.symm) h
        | cons x xs =>
          exact absurd (Or.inr (Or.inl ⟨x :: xs, by simp, ht⟩)) h
    · cases hrel : is_relative_to other p with
      | false => rfl
      | true =>
        obtain ⟨t, ht⟩ := (is_relative_to_iff other p).mp hrel
        cases t with
        | nil =>
          have hop : other = p := by simpa using ht
          exact absurd (Or.inl hop) h
        | cons x xs =>
          exact absurd (Or.inr (Or.inr ⟨x :: xs, by simp, ht⟩)) h
  · rintro ⟨hne, h1, h2⟩ (he | ⟨t, htne, ht⟩ | ⟨t, htne, ht⟩)
    · exact hne he.symm
    · have : is_relative_to p other = true := (is_relative_to_iff _ _).mpr ⟨t, ht⟩
      rw [h1] at this
      cases this
    · have : is_relative_to other p = true := (is_relative_to_iff _ _).mpr ⟨t, ht⟩
      rw [h2] at this
      cases this

/-- The ghost invariant: every path marked-while-reserved is still known and
reserved (both sets are monotone), and no two distinct such paths are related
by the ancestor/descendant relation. -/
def GInv (g : GState) : Prop :=
  ∀ p ∈ g.mrSet,
    p ∈ g.report.known_files ∧ p ∈ g.report.reserved_files ∧
      ∀ q ∈ g.mrSet, p ≠ q →
        is_relative_to p q = false ∧ is_relative_to q p = false

theorem ginv_init : GInv ⟨Report.init, []⟩ := by
  intro p hp
  cases hp

theorem ginv_step (g : GState) (op : Op) (h : GInv g) : GInv (gstep g op) := by
  cases op with
  | reserve a =>
    intro p hp
    obtain ⟨hk, hr, hpair⟩ := h p hp
    exact ⟨hk, mem_setAdd_of_mem _ _ _ hr, hpair⟩
  | is_marked a => exact h
  | record_added a =>
    intro p hp
    obtain ⟨hk, hr, hpair⟩ := h p hp
    exact ⟨hk, hr, hpair⟩
  | record_changed a =>
    intro p hp
    obtain ⟨hk, hr, hpair⟩ := h p hp
    exact ⟨hk, hr, hpair⟩
  | record_deleted a =>
    intro p hp
    obtain ⟨hk, hr, hpair⟩ := h p hp
    exact ⟨hk, hr, hpair⟩
  | mark a =>
    simp only [gstep]
    cases hm : g.report.mark a with
    | error e => exact h
    | ok r' =>
      obtain ⟨hnone, hr'⟩ := mark_ok_elim _ _ _ hm
      subst hr'
      have hchk := (checkConflicts_eq_none_iff a _).mp hnone
      by_cases hres : a ∈ g.report.reserved_files
      · rw [if_pos hres]
        intro p hp
        rw [mem_setAdd] at hp
        rcases hp with hp | rfl
        · obtain ⟨hk, hr, hpair⟩ := h p hp
          refine ⟨mem_setAdd_of_mem _ _ _ hk, hr, ?_⟩
          intro q hq hne
          rw [mem_setAdd] at hq
          rcases hq with hq | rfl
          · exact hpair q hq hne
          · obtain ⟨_, hap, hpa⟩ :=
              hchk p ((mem_interKnownReserved _ _).mpr ⟨hk, hr⟩)
            exact ⟨hpa, hap⟩
        · refine ⟨mem_setAdd_self _ _, hres, ?_⟩
          intro q hq hne
          rw [mem_setAdd] at hq
          rcases hq with hq | rfl
          · obtain ⟨hk, hr, _⟩ := h q hq
            obtain ⟨_, haq, hqa⟩ :=
              hchk q ((mem_interKnownReserved _ _).mpr ⟨hk, hr⟩)
            exact ⟨haq, hqa⟩
          · exact absurd rfl hne
      · rw [if_neg hres]
        intro p hp
        obtain ⟨hk, hr, hpair⟩ := h p hp
        exact ⟨mem_setAdd_of_mem _ _ _ hk, hr, hpair⟩

theorem ginv_foldl (ops : List Op) (g : GState) (h : GInv g) :
    GInv (ops.foldl gstep g) := by
  induction ops generalizing g with
  | nil => exact h
  | cons op rest ih => exact ih _ (ginv_step g op h)

theorem ginv_grun (ops : List Op) : GInv (grun ops) :=
  ginv_foldl ops _ ginv_init

/-- Sanity: the ghost instrumentation does not change the registry itself. -/
theorem grun_report (ops : List Op) (g : GState) :
    (ops.foldl gstep g).report = ops.foldl Report.step g.report := by
  induction ops generalizing g with
  | nil => rfl
  | cons op rest ih =>
    rw [List.foldl_cons, List.foldl_cons, ih]
    cases op with
    | mark p =>
      simp only [gstep, Report.step]
      cases g.report.mark p with
      | ok r' =>
        by_cases hres : p ∈ g.report.reserved_files
        · rw [if_pos hres]
        · rw [if_neg hres]
      | error e => rfl
    | reserve p => rfl
    | is_marked p => rfl
    | record_added p => rfl
    | record_changed p => rfl
    | record_deleted p => rfl

/-! ### Claims -/

/-- C1: `mark p` succeeds exactly when no `other` in the intersection of the
known and reserved sets is equal to `p` or stands in a strict
ancestor/descendant relation to `p`; on success `p` is added to the known set
and `marked p` subsequently returns true; in particular, marking `p` once
after reserving `p` on a fresh registry succeeds and `marked p` becomes
true. -/
theorem C1_mark_success (r : Report) (p : PurePath) :
    ((∃ r', r.mark p = .ok r') ↔
      ∀ other ∈ interKnownReserved r, ¬ specCollides p other) ∧
    (∀ r', r.mark p = .ok r' → p ∈ r'.known_files ∧ r'.marked p = true) ∧
    (∃ r0, (Report.init.mark_reserved p).mark p = .ok r0 ∧
      r0.marked p = true) := by
  refine ⟨⟨?_, ?_⟩, ?_, ?_⟩
  · rintro ⟨r', hr'⟩ other hother
    obtain ⟨hnone, _⟩ := mark_ok_elim _ _ _ hr'
    exact (not_specCollides_iff p other).mpr
      ((checkConflicts_eq_none_iff p _).mp hnone other hother)
  · intro h
    refine ⟨_, mark_ok_of_none r p ?_⟩
    rw [checkConflicts_eq_none_iff]
    intro other hother
    exact (not_specCollides_iff p other).mp (h other hother)
  · intro r' hr'
    obtain ⟨_, hs⟩ := mark_ok_elim _ _ _ hr'
    subst hs
    constructor
    · exact mem_setAdd_self _ _
    · simp only [Report.marked, decide_eq_true_eq]
      exact mem_setAdd_self _ _
  · refine ⟨_, mark_ok_of_none _ _ rfl, ?_⟩
    simp only [Report.marked, decide_eq_true_eq]
    exact mem_setAdd_self _ _

theorem C1_mark_success_witness :
    ((∃ r', Report.init.mark ["a"] = .ok r') ↔
      ∀ other ∈ interKnownReserved Report.init, ¬ specCollides ["a"] other) ∧
    (∀ r', Report.init.mark ["a"] = .ok r' →
      ["a"] ∈ r'.known_files ∧ r'.marked ["a"] = true) ∧
    (∃ r0, (Report.init.mark_reserved ["a"]).mark ["a"] = .ok r0 ∧
      r0.marked ["a"] = true) :=
  C1_mark_success Report.init ["a"]

/-- C2: for `q` a strict ancestor of `p`, reserving and marking `q` and then
reserving and marking `p` from a fresh registry fails with
`markConflict p q`; symmetrically, marking `p` first and then `q` fails with
`markConflict q p`. -/
theorem C2_ancestor_conflict (p q : PurePath) (h : ∃ t, t ≠ [] ∧ p = q ++ t) :
    (∃ r2, (Report.init.mark_reserved q).mark q = .ok r2 ∧
      (r2.mark_reserved p).mark p = .error (.markConflict p q)) ∧
    (∃ s2, (Report.init.mark_reserved p).mark p = .ok s2 ∧
      (s2.mark_reserved q).mark q = .error (.markConflict q p)) := by
  obtain ⟨t, htne, ht⟩ := h
  have hlt : q.length < p.length := by
    rw [ht, List.length_append]
    have : 0 < t.length := List.length_pos.mpr htne
    omega
  have hne : p ≠ q := by
    intro he
    rw [he] at hlt
    exact Nat.lt_irrefl _ hlt
  have hne' : q ≠ p := fun he => hne he.symm
  have hpq : is_relative_to p q = true := (is_relative_to_iff p q).mpr ⟨t, ht⟩
  have hqp : is_relative_to q p = false := by
    cases hc : is_relative_to q p with
    | false => rfl
    | true =>
      obtain ⟨u, hu⟩ := (is_relative_to_iff q p).mp hc
      rw [hu, List.length_append] at hlt
      omega
  have e1 : Report.init.mark_reserved q = ⟨[q], [], [], [], []⟩ := by
    simp [Report.mark_reserved, Report.init, setAdd]
  have e2 : (⟨[q], [], [], [], []⟩ : Report).mark q
      = .ok ⟨[q], [q], [], [], []⟩ := by
    simp [Report.mark, interKnownReserved, checkConflicts, setAdd]
  have e3 : (⟨[q], [q], [], [], []⟩ : Report).mark_reserved p
      = ⟨[q, p], [q], [], [], []⟩ := by
    simp [Report.mark_reserved, setAdd, hne]
  have e4 : (⟨[q, p], [q], [], [], []⟩ : Report).mark p
      = .error (.markConflict p q) := by
    simp [Report.mark, interKnownReserved, checkConflicts, hne, hpq]
  have e5 : Report.init.mark_reserved p = ⟨[p], [], [], [], []⟩ := by
    simp [Report.mark_reserved, Report.init, setAdd]
  have e6 : (⟨[p], [], [], [], []⟩ : Report).mark p
      = .ok ⟨[p], [p], [], [], []⟩ := by
    simp [Report.mark, interKnownReserved, checkConflicts, setAdd]
  have e7 : (⟨[p], [p], [], [], []⟩ : Report).mark_reserved q
      = ⟨[p, q], [p], [], [], []⟩ := by
    simp [Report.mark_reserved, setAdd, hne']
  have e8 : (⟨[p, q], [p], [], [], []⟩ : Report).mark q
      = .error (.markConflict q p) := by
    simp [Report.mark, interKnownReserved, checkConflicts, hne', hpq, hqp]
  refine ⟨⟨⟨[q], [q], [], [], []⟩, ?_, ?_⟩, ⟨[p], [p], [], [], []⟩, ?_, ?_⟩
  · rw [e1]
    exact e2
  · rw [e3]
    exact e4
  · rw [e5]
    exact e6
  · rw [e7]
    exact e8

theorem C2_ancestor_conflict_witness :
    (∃ r2, (Report.init.mark_reserved ["a"]).mark ["a"] = .ok r2 ∧
      (r2.mark_reserved ["a", "b"]).mark ["a", "b"]
        = .error (.markConflict ["a", "b"] ["a"])) ∧
    (∃ s2, (Report.init.mark_reserved ["a", "b"]).mark ["a", "b"] = .ok s2 ∧
      (s2.mark_reserved ["a"]).mark ["a"]
        = .error (.markConflict ["a"] ["a", "b"])) :=
  C2_ancestor_conflict ["a", "b"] ["a"] ⟨["b"], by simp, rfl⟩

/-- C3: in every state reachable from the empty registry by any sequence of
operations, any two distinct paths that were each successfully marked while
they were themselves reserved are both in the intersection of the known and
reserved sets, and neither is an ancestor of the other. -/
theorem C3_invariant (ops : List Op) (p q : PurePath)
    (hp : p ∈ (grun ops).mrSet) (hq : q ∈ (grun ops).mrSet) (hne : p ≠ q) :
    p ∈ (grun ops).report.known_files ∧
    p ∈ (grun ops).report.reserved_files ∧
    q ∈ (grun ops).report.known_files ∧
    q ∈ (grun ops).report.reserved_files ∧
    is_relative_to p q = false ∧ is_relative_to q p = false := by
  have h := ginv_grun ops
  obtain ⟨hk, hr, hpair⟩ := h p hp
  obtain ⟨hk', hr', _⟩ := h q hq
  obtain ⟨h1, h2⟩ := hpair q hq hne
  exact ⟨hk, hr, hk', hr', h1, h2⟩

theorem C3_invariant_witness :
    ["a"] ∈ (grun [.reserve ["a"], .mark ["a"], .reserve ["b"],
        .mark ["b"]]).report.known_files ∧
    ["a"] ∈ (grun [.reserve ["a"], .mark ["a"], .reserve ["b"],
        .mark ["b"]]).report.reserved_files ∧
    ["b"] ∈ (grun [.reserve ["a"], .mark ["a"], .reserve ["b"],
        .mark ["b"]]).report.known_files ∧
    ["b"] ∈ (grun [.reserve ["a"], .mark ["a"], .reserve ["b"],
        .mark ["b"]]).report.reserved_files ∧
    is_relative_to ["a"] ["b"] = false ∧ is_relative_to ["b"] ["a"] = false :=
  C3_invariant [.reserve ["a"], .mark ["a"], .reserve ["b"], .mark ["b"]]
    ["a"] ["b"] (by decide) (by decide) (by decide)

/-- C4: a `mark` call that fails leaves the entire registry state unchanged,
so every subsequent call behaves as if the failed call never happened. -/
theorem C4_failed_mark_frame (r : Report) (p : PurePath) (e : MarkException)
    (h : r.mark p = .error e) :
    r.step (.mark p) = r ∧ ∀ op, (r.step (.mark p)).step op = r.step op := by
  have hs : r.step (.mark p) = r := by
    simp only [Report.step]
    rw [h]
  exact ⟨hs, fun op => by rw [hs]⟩

theorem C4_failed_mark_frame_witness :
    (⟨[["a"]], [["a"]], [], [], []⟩ : Report).step (.mark ["a"])
        = ⟨[["a"]], [["a"]], [], [], []⟩ ∧
    ∀ op, ((⟨[["a"]], [["a"]], [], [], []⟩ : Report).step (.mark ["a"])).step op
        = (⟨[["a"]], [["a"]], [], [], []⟩ : Report).step op :=
  C4_failed_mark_frame ⟨[["a"]], [["a"]], [], [], []⟩ ["a"]
    (.markDuplicate ["a"]) rfl

/-- C5: a path that is known but not reserved does not participate in
conflict checks: after marking `x` without ever reserving it, marking the
strict descendant `x ++ t` (once reserved) succeeds even though `x` is a
strict ancestor of it. -/
theorem C5_unreserved_invisible (x : PurePath) (t : List String) (ht : t ≠ []) :
    ∃ r1, Report.init.mark x = .ok r1 ∧
      x ∈ r1.known_files ∧ x ∉ r1.reserved_files ∧
      is_relative_to (x ++ t) x = true ∧ x ≠ x ++ t ∧
      ∃ r2, (r1.mark_reserved (x ++ t)).mark (x ++ t) = .ok r2 ∧
        r2.marked (x ++ t) = true := by
  have hlen : 0 < t.length := List.length_pos.mpr ht
  have hne : x ≠ x ++ t := by
    intro he
    have := congrArg List.length he
    rw [List.length_append] at this
    omega
  have hne' : x ++ t ≠ x := fun he => hne he.symm
  have e1 : Report.init.mark x = .ok ⟨[], [x], [], [], []⟩ := by
    simp [Report.mark, Report.init, interKnownReserved, checkConflicts, setAdd]
  have e2 : (⟨[], [x], [], [], []⟩ : Report).mark_reserved (x ++ t)
      = ⟨[x ++ t], [x], [], [], []⟩ := by
    simp [Report.mark_reserved, setAdd]
  have e3 : (⟨[x ++ t], [x], [], [], []⟩ : Report).mark (x ++ t)
      = .ok ⟨[x ++ t], [x, x ++ t], [], [], []⟩ := by
    simp [Report.mark, interKnownReserved, checkConflicts, setAdd, hne, hne']
  refine ⟨⟨[], [x], [], [], []⟩, e1, by simp, by simp,
    (is_relative_to_iff _ _).mpr ⟨t, rfl⟩, hne,
    ⟨[x ++ t], [x, x ++ t], [], [], []⟩, ?_, ?_⟩
  · rw [e2]
    exact e3
  · simp [Report.marked]

theorem C5_unreserved_invisible_witness :
    ∃ r1, Report.init.mark ["x"] = .ok r1 ∧
      ["x"] ∈ r1.known_files ∧ ["x"] ∉ r1.reserved_files ∧
      is_relative_to (["x"] ++ ["y"]) ["x"] = true ∧
      ["x"] ≠ ["x"] ++ ["y"] ∧
      ∃ r2, (r1.mark_reserved (["x"] ++ ["y"])).mark (["x"] ++ ["y"])
          = .ok r2 ∧ r2.marked (["x"] ++ ["y"]) = true :=
  C5_unreserved_invisible ["x"] ["y"] (by simp)

/-- C6: reserving `p`, marking it once (success), then marking it again while
still reserved fails with `markDuplicate p`, and the failed call changes
nothing: the state is unchanged and `marked p` stays true. -/
theorem C6_duplicate (p : PurePath) :
    ∃ r1, (Report.init.mark_reserved p).mark p = .ok r1 ∧
      r1.mark p = .error (.markDuplicate p) ∧
      r1.step (.mark p) = r1 ∧ r1.marked p = true := by
  have e1 : Report.init.mark_reserved p = ⟨[p], [], [], [], []⟩ := by
    simp [Report.mark_reserved, Report.init, setAdd]
  have e2 : (⟨[p], [], [], [], []⟩ : Report).mark p
      = .ok ⟨[p], [p], [], [], []⟩ := by
    simp [Report.mark, interKnownReserved, checkConflicts, setAdd]
  have e3 : (⟨[p], [p], [], [], []⟩ : Report).mark p
      = .error (.markDuplicate p) := by
    simp [Report.mark, interKnownReserved, checkConflicts]
  refine ⟨⟨[p], [p], [], [], []⟩, ?_, e3, ?_, ?_⟩
  · rw [e1]
    exact e2
  · simp only [Report.step]
    rw [e3]
  · simp [Report.marked]

/-- C7: `mark_reserved` is total and idempotent: for every N ≥ 1, N
applications produce the same state as one, and reserving never changes the
known set or the three outcome sets. -/
theorem C7_reserve_idempotent (r : Report) (p : PurePath) (n : Nat)
    (h : 1 ≤ n) :
    (fun s => Report.mark_reserved s p)^[n] r = r.mark_reserved p ∧
    (r.mark_reserved p).known_files = r.known_files ∧
    (r.mark_reserved p).new_files = r.new_files ∧
    (r.mark_reserved p).changed_files = r.changed_files ∧
    (r.mark_reserved p).deleted_files = r.deleted_files := by
  have hid : ∀ s : Report, (s.mark_reserved p).mark_reserved p
      = s.mark_reserved p := by
    intro s
    simp [Report.mark_reserved, setAdd_idem]
  have hiter : ∀ m, ∀ s : Report,
      (fun u => Report.mark_reserved u p)^[m] (s.mark_reserved p)
        = s.mark_reserved p := by
    intro m
    induction m with
    | zero => intro s; rfl
    | succ k ih =>
      intro s
      rw [Function.iterate_succ_apply]
      show (fun u => Report.mark_reserved u p)^[k]
          ((s.mark_reserved p).mark_reserved p) = s.mark_reserved p
      rw [hid s]
      exact ih s
  refine ⟨?_, rfl, rfl, rfl, rfl⟩
  cases n with
  | zero => exact absurd h (by omega)
  | succ m =>
    rw [Function.iterate_succ_apply]
    exact hiter m r

theorem C7_reserve_idempotent_witness :
    (fun s => Report.mark_reserved s ["a"])^[3] Report.init
      = Report.init.mark_reserved ["a"] ∧
    (Report.init.mark_reserved ["a"]).known_files = Report.init.known_files ∧
    (Report.init.mark_reserved ["a"]).new_files = Report.init.new_files ∧
    (Report.init.mark_reserved ["a"]).changed_files
      = Report.init.changed_files ∧
    (Report.init.mark_reserved ["a"]).deleted_files
      = Report.init.deleted_files :=
  C7_reserve_idempotent Report.init ["a"] 3 (by omega)

/-- C8: `add_file`, `change_file` and `delete_file` are total, each inserts
into its own outcome set only, leaving the other four sets untouched, and
recording the same path with all three leaves it in all three outcome sets
simultaneously. -/
theorem C8_record_frame (r : Report) (p : PurePath) :
    ((r.add_file p).new_files = setAdd r.new_files p ∧
      p ∈ (r.add_file p).new_files ∧
      (r.add_file p).reserved_files = r.reserved_files ∧
      (r.add_file p).known_files = r.known_files ∧
      (r.add_file p).changed_files = r.changed_files ∧
      (r.add_file p).deleted_files = r.deleted_files) ∧
    ((r.change_file p).changed_files = setAdd r.changed_files p ∧
      p ∈ (r.change_file p).changed_files ∧
      (r.change_file p).reserved_files = r.reserved_files ∧
      (r.change_file p).known_files = r.known_files ∧
      (r.change_file p).new_files = r.new_files ∧
      (r.change_file p).deleted_files = r.deleted_files) ∧
    ((r.delete_file p).deleted_files = setAdd r.deleted_files p ∧
      p ∈ (r.delete_file p).deleted_files ∧
      (r.delete_file p).reserved_files = r.reserved_files ∧
      (r.delete_file p).known_files = r.known_files ∧
      (r.delete_file p).new_files = r.new_files ∧
      (r.delete_file p).changed_files = r.changed_files) ∧
    (p ∈ (((r.add_file p).change_file p).delete_file p).new_files ∧
      p ∈ (((r.add_file p).change_file p).delete_file p).changed_files ∧
      p ∈ (((r.add_file p).change_file p).delete_file p).deleted_files) :=
  ⟨⟨rfl, mem_setAdd_self _ _, rfl, rfl, rfl, rfl⟩,
    ⟨rfl, mem_setAdd_self _ _, rfl, rfl, rfl, rfl⟩,
    ⟨rfl, mem_setAdd_self _ _, rfl, rfl, rfl, rfl⟩,
    mem_setAdd_self _ _, mem_setAdd_self _ _, mem_setAdd_self _ _⟩

/-- C9: when the marked path itself lies in the intersection of the known and
reserved sets, `mark` fails, and no conflict error ever carries the marked
path as its own colliding path: the equality test precedes the relative-to
tests for every examined candidate. -/
theorem C9_no_self_conflict (r : Report) (p : PurePath)
    (hp : p ∈ interKnownReserved r) :
    (∃ e, r.mark p = .error e) ∧
    ∀ q, r.mark p = .error (.markConflict p q) → q ≠ p := by
  constructor
  · obtain ⟨e, he⟩ := checkConflicts_of_mem p _ hp
    exact ⟨e, mark_error_of_some r p e he⟩
  · intro q hq
    exact (checkConflicts_conflict p _ p q (mark_error_elim _ _ _ hq)).2

theorem C9_no_self_conflict_witness :
    (∃ e, (⟨[["a"]], [["a"]], [], [], []⟩ : Report).mark ["a"]
        = .error e) ∧
    ∀ q, (⟨[["a"]], [["a"]], [], [], []⟩ : Report).mark ["a"]
        = .error (.markConflict ["a"] q) → q ≠ ["a"] :=
  C9_no_self_conflict ⟨[["a"]], [["a"]], [], [], []⟩ ["a"] (by decide)

/-- C10: a path that is never reserved can be marked twice from a fresh
registry: both calls succeed, and the second call returns the very same state
(the path is already known and set insertion is idempotent). -/
theorem C10_unreserved_remark (p : PurePath) :
    ∃ r1, Report.init.mark p = .ok r1 ∧ r1.mark p = .ok r1 ∧
      r1.marked p = true := by
  have e1 : Report.init.mark p = .ok ⟨[], [p], [], [], []⟩ := by
    simp [Report.mark, Report.init, interKnownReserved, checkConflicts, setAdd]
  have e2 : (⟨[], [p], [], [], []⟩ : Report).mark p
      = .ok ⟨[], [p], [], [], []⟩ := by
    simp [Report.mark, interKnownReserved, checkConflicts, setAdd]
  exact ⟨⟨[], [p], [], [], []⟩, e1, e2, by simp [Report.marked]⟩
